import Mathlib

set_option linter.unusedVariables false

/-!
Verification of the MANET analysis engine of `scripts/analyze_results.py`
(event correlation, series-size inference, health scoring, QoS aggregation,
first-offline connectivity tracking).

Modelling conventions:
* CSV rows become Lean structures; pandas dataframes become lists of rows.
* Floating point times/sizes are modelled as exact rationals (ℚ).
* `pandas.sort_values` is modelled as a stable insertion sort on the stated
  key (pandas' default quicksort is unstable, but the key order it realises
  is the same; stability only matters for rows with equal keys, where the
  source's behaviour is unspecified).
* NaN sentinels produced for undefined statistics become `Option` values
  (`none` = NaN), and operations that raise become `Option`-returning.
* `n.endswith("S")` for the one-character spine suffix is modelled as a test
  on the last character of the identifier.
-/

namespace AnalyzeResults

/-- One row of the packets CSV: columns `uid`, `time`, `node`, `size`,
`received` (0 for a send event, 1 for a receive event). -/
structure PacketEvent where
  uid : Nat
  time : ℚ
  node : String
  size : ℚ
  received : Nat
deriving DecidableEq

/-- The receiver-side fields a send row acquires through the merge:
`recv_node` and `time_recv` (jointly present or jointly absent). -/
structure RecvInfo where
  recv_node : String
  time_recv : ℚ
deriving DecidableEq

/-- One row of the `merged` dataframe of `load_and_merge_packets`:
a send row (uid, time_send, node, size) with the optional receive columns. -/
structure MergedRow where
  uid : Nat
  time_send : ℚ
  node : String
  size : ℚ
  recv : Option RecvInfo
deriving DecidableEq

/-- `df_send = df[df["received"] == 0]` (send events, in file order). -/
def sendRows (events : List PacketEvent) : List PacketEvent :=
  events.filter (fun e => e.received == 0)

/-- `df_recv = df[df["received"] == 1]` (receive events, in file order). -/
def recvRows (events : List PacketEvent) : List PacketEvent :=
  events.filter (fun e => e.received == 1)

/-- `pd.merge(df_send, df_recv, on="uid", how="left")`: every send row is kept
in order; a send with no matching receive keeps the receive columns unset; a
send with k matching receives yields k output rows, one per match, in the
receive rows' order. -/
def mergePackets (sends recvs : List PacketEvent) : List MergedRow :=
  sends.flatMap (fun s =>
    match recvs.filter (fun r => r.uid == s.uid) with
    | [] => [⟨s.uid, s.time, s.node, s.size, none⟩]
    | m :: ms => (m :: ms).map (fun r => ⟨s.uid, s.time, s.node, s.size, some ⟨r.node, r.time⟩⟩))

/-- Stable insertion of `x` into `l` with respect to the boolean key order
`le`: `x` is placed before the first element `y` with `le x y`. -/
def insertLe (le : α → α → Bool) (x : α) : List α → List α
  | [] => [x]
  | y :: ys => if le x y then x :: y :: ys else y :: insertLe le x ys

/-- Stable insertion sort with respect to the boolean key order `le`;
models `pandas.sort_values` on the corresponding key. -/
def sortLe (le : α → α → Bool) : List α → List α
  | [] => []
  | x :: xs => insertLe le x (sortLe le xs)

/-- Key order of `sort_values("time_send")` on merged rows. -/
def leTime (a b : MergedRow) : Bool :=
  decide (a.time_send ≤ b.time_send)

/-- Key order of `sort_values(["time_send", "uid"])` on send rows. -/
def leTimeUid (a b : PacketEvent) : Bool :=
  decide (a.time < b.time) || (decide (a.time = b.time) && decide (a.uid ≤ b.uid))

/-- Key order of Python `sorted` on node-identifier strings. -/
def leStr (a b : String) : Bool :=
  decide (a ≤ b)

/-- Helper of `uniqueFirst`, carrying the set of values already seen. -/
def uniqueFirstAux (seen : List String) : List String → List String
  | [] => []
  | x :: xs => if seen.contains x then uniqueFirstAux seen xs
               else x :: uniqueFirstAux (x :: seen) xs

/-- `pandas.Series.unique`: the distinct values in first-occurrence order. -/
def uniqueFirst (l : List String) : List String :=
  uniqueFirstAux [] l

/-- `n.endswith("S")`: the identifier's last character is the spine suffix. -/
def isSpineId (n : String) : Bool :=
  n.data.getLast? == some 'S'

/-- `sorted([n for n in merged["node"].unique() if n.endswith("S")])`. -/
def spineIdsOf (merged : List MergedRow) : List String :=
  sortLe leStr ((uniqueFirst (merged.map (·.node))).filter (fun n => isSpineId n))

/-- `sorted([n for n in merged["node"].unique() if not n.endswith("S")])`. -/
def normalIdsOf (merged : List MergedRow) : List String :=
  sortLe leStr ((uniqueFirst (merged.map (·.node))).filter (fun n => !isSpineId n))

/-- `pandas.Series.min` over a list of rationals (`none` on an empty list,
where pandas yields NaN). -/
def seriesMin : List ℚ → Option ℚ
  | [] => none
  | x :: xs => some (xs.foldl (fun a b => if b < a then b else a) x)

/-- `pandas.Series.max` over a list of rationals (`none` on an empty list). -/
def seriesMax : List ℚ → Option ℚ
  | [] => none
  | x :: xs => some (xs.foldl (fun a b => if a < b then b else a) x)

/-- Result tuple of `load_and_merge_packets`. -/
structure LoadResult where
  df_send : List PacketEvent
  merged : List MergedRow
  normal_ids : List String
  spine_ids : List String
  t0 : Option ℚ
  t1 : Option ℚ
deriving DecidableEq

/-- `load_and_merge_packets`: split sends/receives, left-join on `uid`,
classify spine vs normal identifiers, and take the send-time bounds. -/
def load_and_merge_packets (events : List PacketEvent) : LoadResult :=
  let ds := sendRows events
  let merged := mergePackets ds (recvRows events)
  ⟨ds, merged, normalIdsOf merged, spineIdsOf merged,
    seriesMin (ds.map (·.time)), seriesMax (ds.map (·.time))⟩

/-- The run lengths of maximal blocks of consecutive equal nodes, given the
current block's node and its count so far (the loop of
`infer_series_size_from_runs`). -/
def runLengthsAux (cur : String) (cnt : Nat) : List String → List Nat
  | [] => [cnt]
  | n :: rest => if n == cur then runLengthsAux cur (cnt + 1) rest else cnt :: runLengthsAux n 1 rest

/-- Run lengths of maximal consecutive equal-node blocks of a node sequence. -/
def runLengths : List String → List Nat
  | [] => []
  | n :: rest => runLengthsAux n 1 rest

/-- `Counter(l).most_common(1)[0][0]` on a nonempty list: the value with the
highest multiplicity; on ties the value whose first occurrence is earliest
(Counter preserves first-insertion order and `most_common` sorts stably). -/
def firstMode : List Nat → Nat
  | [] => 0
  | x :: xs => (x :: xs).foldl (fun best y => if (x :: xs).count best < (x :: xs).count y then y else best) x

/-- `infer_series_size_from_runs`: sort sends by `(time_send, uid)`, take the
node sequence, and return the most frequent run length; `none` models the
`RuntimeError` raised when there are no sends. -/
def infer_series_size_from_runs (df_send : List PacketEvent) : Option Nat :=
  let nodes := (sortLe leTimeUid df_send).map (·.node)
  match nodes with
  | [] => none
  | _ :: _ => some (firstMode (runLengths nodes))

/-- `math.ceil(n / s)` for natural `n`, `s` (`s > 0`). -/
def ceilDivNat (n s : Nat) : Nat :=
  (n + s - 1) / s

/-- `sub.iloc[i*s : (i+1)*s]`: the `i`-th chunk of `s` rows. -/
def chunkAt (sub : List MergedRow) (s i : Nat) : List MergedRow :=
  (sub.drop (i * s)).take s

/-- `chunk["recv_node"].isin(spine_ids).any()`: some row of the chunk was
received by a spine node (rows with no receiver never match). -/
def chunkHealthy (spine : List String) (c : List MergedRow) : Bool :=
  c.any (fun r => match r.recv with
    | some ri => spine.contains ri.recv_node
    | none => false)

/-- A node's rows of the merged table, sorted by send time
(`merged[merged["node"] == node].sort_values("time_send")`). -/
def nodeSub (merged : List MergedRow) (v : String) : List MergedRow :=
  sortLe leTime (merged.filter (fun r => r.node == v))

/-- Number of healthy chunks among the `total` chunks of `sub`. -/
def healthyCount (spine : List String) (sub : List MergedRow) (s total : Nat) : Nat :=
  ((List.range total).filter (fun i => chunkHealthy spine (chunkAt sub s i))).length

/-- One output row of `compute_health`. -/
structure HealthRecord where
  node : String
  total_series : Nat
  healthy_series : Nat
  health_fraction : ℚ
deriving DecidableEq

/-- The `compute_health` loop body for one node. -/
def healthRecord (merged : List MergedRow) (spine : List String) (s : Nat) (v : String) :
    HealthRecord :=
  let sub := nodeSub merged v
  let total := ceilDivNat sub.length s
  let healthy := healthyCount spine sub s total
  ⟨v, total, healthy, if 0 < total then (healthy : ℚ) / (total : ℚ) else 0⟩

/-- `compute_health`: one record per normal node, in `normal_ids` order. -/
def compute_health (merged : List MergedRow) (normal_ids spine_ids : List String) (s : Nat) :
    List HealthRecord :=
  normal_ids.map (healthRecord merged spine_ids s)

/-- The inner accumulation of `compute_health_over_time` for one cutoff:
the `(healthy, total)` series counters summed over all normal nodes, on the
window of merged rows with `time_send ≤ tcut`. -/
def windowCounts (merged : List MergedRow) (normal_ids spine_ids : List String) (s : Nat)
    (tcut : ℚ) : Nat × Nat :=
  normal_ids.foldl (fun acc v =>
    let sub := nodeSub (merged.filter (fun r => decide (r.time_send ≤ tcut))) v
    let cnt := ceilDivNat sub.length s
    (acc.1 + healthyCount spine_ids sub s cnt, acc.2 + cnt)) (0, 0)

/-- The integer percentage of step `step` out of `steps` (`step*100//steps`). -/
def stepPercent (steps step : Nat) : Nat :=
  step * 100 / steps

/-- The cutoff time used at `step`: `t0 + (t1 - t0) * (pct / 100.0)`. -/
def stepCutoff (t0 t1 : ℚ) (steps step : Nat) : ℚ :=
  t0 + (t1 - t0) * ((stepPercent steps step : ℚ) / 100)

/-- `compute_health_over_time`: for each step `1..steps`, the integer percent
together with the network-wide health fraction of the cumulative window. -/
def compute_health_over_time (merged : List MergedRow) (normal_ids spine_ids : List String)
    (s : Nat) (t0 t1 : ℚ) (steps : Nat) : List (Nat × ℚ) :=
  (List.range steps).map (fun j =>
    let hc := windowCounts merged normal_ids spine_ids s (stepCutoff t0 t1 steps (j + 1))
    (stepPercent steps (j + 1), if 0 < hc.2 then (hc.1 : ℚ) / (hc.2 : ℚ) else 0))

/-- One output row of `compute_qos` (the numeric values; the script's final
percent/decimal string formatting is presentation only). NaN entries of the
`pdr` and `avg_delay` columns are `none`. -/
structure QoSRecord where
  node : String
  total_sent : Nat
  total_received : Nat
  pdr : Option ℚ
  avg_delay : Option ℚ
  throughput : ℚ
deriving DecidableEq

/-- The `averages` dictionary of `compute_qos` (`np.nan` = `none`). -/
structure QoSAverages where
  avg_pdr : Option ℚ
  avg_delay : Option ℚ
  avg_throughput : Option ℚ
deriving DecidableEq

/-- `sim_duration = t1 - t0 if (t1 - t0) > 0 else 1.0`. -/
def simDuration (t0 t1 : ℚ) : ℚ :=
  if 0 < t1 - t0 then t1 - t0 else 1

/-- The rows of a node with a receiver (`sub[sub["recv_node"].notna()]`). -/
def receivedRowsOf (merged : List MergedRow) (v : String) : List MergedRow :=
  (merged.filter (fun r => r.node == v)).filter (fun r => r.recv.isSome)

/-- The per-packet delays `time_recv - time_send` of a node's delivered rows. -/
def deliveredDelays (merged : List MergedRow) (v : String) : List ℚ :=
  (receivedRowsOf merged v).filterMap (fun r => r.recv.map (fun ri => ri.time_recv - r.time_send))

/-- The delivered bit total of a node (`(received_df["size"] * 8).sum()`). -/
def deliveredBits (merged : List MergedRow) (v : String) : ℚ :=
  ((receivedRowsOf merged v).map (fun r => r.size * 8)).sum

/-- The `compute_qos` loop body for one node. -/
def qosRecord (merged : List MergedRow) (t0 t1 : ℚ) (v : String) : QoSRecord :=
  let sub := merged.filter (fun r => r.node == v)
  let total_sent := sub.length
  let received_df := sub.filter (fun r => r.recv.isSome)
  let total_received := received_df.length
  let pdr : Option ℚ :=
    if 0 < total_sent then some ((total_received : ℚ) / (total_sent : ℚ)) else none
  let delays := received_df.filterMap (fun r => r.recv.map (fun ri => ri.time_recv - r.time_send))
  let avg_delay : Option ℚ :=
    if 0 < total_received then some (delays.sum / (delays.length : ℚ)) else none
  let total_bits : ℚ := (received_df.map (fun r => r.size * 8)).sum
  let throughput : ℚ :=
    if 0 < total_received then total_bits / simDuration t0 t1 else 0
  ⟨v, total_sent, total_received, pdr, avg_delay, throughput⟩

/-- `np.mean` over the helper lists of `compute_qos` (`np.nan` on empty). -/
def npMean (l : List ℚ) : Option ℚ :=
  match l with
  | [] => none
  | _ :: _ => some (l.sum / (l.length : ℚ))

/-- The fold state of the `compute_qos` node loop: the records list and the
`pdr_list` / `delay_list` / `throughput_list` helper lists. -/
structure QosAcc where
  records : List QoSRecord
  pdr_list : List ℚ
  delay_list : List ℚ
  throughput_list : List ℚ

/-- One iteration of the `compute_qos` node loop: append the node's record
and push its defined statistics onto the helper lists (NaN ones skipped;
throughput always appended). -/
def qosStep (merged : List MergedRow) (t0 t1 : ℚ) (acc : QosAcc) (v : String) : QosAcc :=
  let r := qosRecord merged t0 t1 v
  { records := acc.records ++ [r]
    pdr_list := acc.pdr_list ++ (r.pdr.map (fun p => [p])).getD []
    delay_list := acc.delay_list ++ (r.avg_delay.map (fun d => [d])).getD []
    throughput_list := acc.throughput_list ++ [r.throughput] }

/-- `compute_qos`: the per-node records (in `normal_ids` order) and the
averages over the nodes whose statistic is defined. `spine_ids` is accepted
and unused, exactly as in the source. -/
def compute_qos (merged : List MergedRow) (normal_ids spine_ids : List String)
    (t0 t1 : ℚ) : List QoSRecord × QoSAverages :=
  let acc := normal_ids.foldl (qosStep merged t0 t1) ⟨[], [], [], []⟩
  (acc.records, ⟨npMean acc.pdr_list, npMean acc.delay_list, npMean acc.throughput_list⟩)

/-- `main` (`analyze_results.py`): the `--nodes` count is parsed but never
forwarded — `analyze_health` is called with the packets path and series size
only, so the normal-id universe is always the one observed in the log.  This
definition exposes the normal ids `main` effectively uses for a given parsed
`--nodes` argument. -/
def mainNormalIds (events : List PacketEvent) (nodesArg : Option Nat) : List String :=
  (load_and_merge_packets events).normal_ids

/-- One row of the connectivity CSV as used by `plot_movement`
(node, time, online). -/
structure ConnSample where
  node : Int
  time : ℚ
  online : Bool
deriving DecidableEq

/-- The first-offline mapping of `plot_movement`:
`df_conn[df_conn["online"] == False].groupby("node")["time"].min()`, read at
one node: the minimum time over the node's offline samples, absent (`none`)
when the node has no offline sample. -/
def firstOfflineTime (samples : List ConnSample) (v : Int) : Option ℚ :=
  seriesMin ((samples.filter (fun x => !x.online && x.node == v)).map (·.time))

/-- The number of merged rows of one node (the scorer's per-node sent count,
`len(merged[merged["node"] == node])`). -/
def sentCount (merged : List MergedRow) (v : String) : Nat :=
  (merged.filter (fun r => r.node == v)).length

/-- The number of delivered merged rows of one node. -/
def receivedCount (merged : List MergedRow) (v : String) : Nat :=
  (receivedRowsOf merged v).length

/-- Send rows with node names `l` in order, one per time unit starting at
time `i` (uid = time index): a synthetic send log. -/
def mkRowsFrom : Nat → List String → List PacketEvent
  | _, [] => []
  | i, nm :: rest => ⟨i, (i : ℚ), nm, 1, 0⟩ :: mkRowsFrom (i + 1) rest

/-- A synthetic send log of `ns.length` bursts ("series"), each of `L`
consecutive sends by the same node, at strictly increasing times. -/
def mkSeriesLog (ns : List String) (L : Nat) : List PacketEvent :=
  mkRowsFrom 0 (ns.flatMap (fun nm => List.replicate L nm))

/-! ### Concrete fixtures used by witnesses and counterexamples -/

/-- A packets log with one send whose uid is shared by two receive events. -/
def dupRecvLog : List PacketEvent :=
  [⟨1, 0, "0", 5, 0⟩, ⟨1, 1, "1S", 5, 1⟩, ⟨1, 2, "2S", 5, 1⟩]

/-- A packets log whose receive uids are distinct. -/
def uniqRecvLog : List PacketEvent :=
  [⟨1, 0, "0", 5, 0⟩, ⟨2, 1, "0", 5, 0⟩, ⟨1, 2, "1S", 5, 1⟩]

/-- Merged table: node `"0"` sends at t=0 (delivered to the spine at t=1) and
at t=10 (undelivered); series size 1 makes the early window fully healthy. -/
def hotLog : List MergedRow :=
  [⟨1, 0, "0", 1, some ⟨"1S", 1⟩⟩, ⟨2, 10, "0", 1, none⟩]

/-- Merged table for Scenario C: two delivered packets of node `"0"` with
delays 1 and 3 (sizes 100 bytes each). -/
def scenarioCLog : List MergedRow :=
  [⟨1, 0, "0", 100, some ⟨"1S", 1⟩⟩, ⟨2, 2, "0", 100, some ⟨"1S", 5⟩⟩]

/-- Merged table with one delivered 100-byte packet, used with a zero-width
time span. -/
def zeroDurLog : List MergedRow :=
  [⟨1, 0, "0", 100, some ⟨"1S", 0⟩⟩]

/-- A packets log whose sends come from nodes `"5"` and `"7S"` only. -/
def sparseNodesLog : List PacketEvent :=
  [⟨1, 0, "5", 1, 0⟩, ⟨2, 1, "7S", 1, 0⟩]

/-- Merged table: node `"0"` has one delivered and one undelivered send. -/
def smallHealthLog : List MergedRow :=
  [⟨1, 0, "0", 1, some ⟨"1S", 1⟩⟩, ⟨2, 1, "0", 1, none⟩]

/-- Scenario D/E connectivity samples: node 3 goes offline at t=2, node 4 is
always online. -/
def scenarioDConn : List ConnSample :=
  [⟨3, 0, true⟩, ⟨3, 1, true⟩, ⟨3, 2, false⟩, ⟨3, 3, false⟩, ⟨4, 5, true⟩]

/-- A two-send log with two singleton runs (nodes "a" then "b"). -/
def twoRunsLog : List PacketEvent :=
  [⟨0, 0, "a", 1, 0⟩, ⟨1, 1, "b", 1, 0⟩]

/-! ### Generic toolkit lemmas -/

theorem insertLe_length (le : α → α → Bool) (x : α) (l : List α) :
    (insertLe le x l).length = l.length + 1 := by
  induction l with
  | nil => rfl
  | cons y ys ih =>
    unfold insertLe
    by_cases h : le x y
    · simp [h]
    · simp [h, ih]

theorem sortLe_length (le : α → α → Bool) (l : List α) :
    (sortLe le l).length = l.length := by
  induction l with
  | nil => rfl
  | cons x xs ih => simp [sortLe, insertLe_length, ih]

theorem mem_insertLe (le : α → α → Bool) (x y : α) (l : List α) :
    y ∈ insertLe le x l ↔ y = x ∨ y ∈ l := by
  induction l with
  | nil => simp [insertLe]
  | cons z zs ih =>
    unfold insertLe
    by_cases h : le x z
    · simp [h]
    · simp only [h]
      simp only [Bool.false_eq_true, if_false, List.mem_cons, ih]
      tauto

theorem mem_sortLe (le : α → α → Bool) (y : α) (l : List α) :
    y ∈ sortLe le l ↔ y ∈ l := by
  induction l with
  | nil => simp [sortLe]
  | cons x xs ih => simp [sortLe, mem_insertLe, ih]

theorem sortLe_eq_of_chain (le : α → α → Bool) :
    ∀ l : List α, List.Chain' (fun a b => le a b = true) l → sortLe le l = l
  | [], _ => rfl
  | [x], _ => rfl
  | x :: y :: ys, h => by
    have hxy : le x y = true := (List.chain'_cons.mp h).1
    have ih : sortLe le (y :: ys) = y :: ys :=
      sortLe_eq_of_chain le (y :: ys) (List.chain'_cons.mp h).2
    simp [sortLe] at ih ⊢
    rw [ih]
    simp [insertLe, hxy]

theorem minFold_mem : ∀ (xs : List ℚ) (x : ℚ),
    xs.foldl (fun a b => if b < a then b else a) x ∈ x :: xs := by
  intro xs
  induction xs with
  | nil => intro x; simp
  | cons y ys ih =>
    intro x
    simp only [List.foldl_cons]
    have h := ih (if y < x then y else x)
    by_cases hyx : y < x
    · simp only [if_pos hyx] at h ⊢
      rcases List.mem_cons.mp h with h1 | h1
      · simp [h1]
      · simp [List.mem_cons, h1]
    · simp only [if_neg hyx] at h ⊢
      rcases List.mem_cons.mp h with h1 | h1
      · simp [h1]
      · simp [List.mem_cons, h1]

theorem minFold_le : ∀ (xs : List ℚ) (x b : ℚ), b ∈ x :: xs →
    xs.foldl (fun a b => if b < a then b else a) x ≤ b := by
  intro xs
  induction xs with
  | nil =>
    intro x b hb
    simp only [List.mem_cons, List.not_mem_nil, or_false] at hb
    simp [hb]
  | cons y ys ih =>
    intro x b hb
    simp only [List.foldl_cons]
    have hfx : (if y < x then y else x) ≤ x := by
      by_cases hyx : y < x
      · simp [if_pos hyx, le_of_lt hyx]
      · simp [if_neg hyx]
    have hfy : (if y < x then y else x) ≤ y := by
      by_cases hyx : y < x
      · simp [if_pos hyx]
      · simp [if_neg hyx, not_lt.mp hyx]
    rcases List.mem_cons.mp hb with rfl | hb'
    · exact le_trans (ih _ _ (List.mem_cons_self _ _)) hfx
    · rcases List.mem_cons.mp hb' with rfl | hb''
      · exact le_trans (ih _ _ (List.mem_cons_self _ _)) hfy
      · exact ih _ b (List.mem_cons_of_mem _ hb'')

theorem seriesMin_mem {l : List ℚ} {t : ℚ} (h : seriesMin l = some t) : t ∈ l := by
  match l with
  | [] => simp [seriesMin] at h
  | x :: xs =>
    simp only [seriesMin, Option.some.injEq] at h
    subst h
    exact minFold_mem xs x

theorem seriesMin_le {l : List ℚ} {t : ℚ} (h : seriesMin l = some t) :
    ∀ b ∈ l, t ≤ b := by
  match l with
  | [] => simp [seriesMin] at h
  | x :: xs =>
    simp only [seriesMin, Option.some.injEq] at h
    subst h
    exact fun b hb => minFold_le xs x b hb

/-! ### C9: first-offline mapping -/

/-- C9: the first-offline mapping sends each node having at least one sample
with `online = false` to the minimum time over such samples, and a node whose
samples are all online is absent from the mapping (`none`, no sentinel). -/
theorem C9_first_offline_min (samples : List ConnSample) (v : Int) :
    ((∃ x ∈ samples, x.node = v ∧ x.online = false) →
      ∃ t, firstOfflineTime samples v = some t ∧
        (∃ x ∈ samples, x.node = v ∧ x.online = false ∧ x.time = t) ∧
        (∀ x ∈ samples, x.node = v → x.online = false → t ≤ x.time)) ∧
    ((∀ x ∈ samples, x.node = v → x.online = true) →
      firstOfflineTime samples v = none) := by
  constructor
  · rintro ⟨x, hxs, hnode, honline⟩
    have hxf : x ∈ samples.filter (fun y => !y.online && y.node == v) := by
      rw [List.mem_filter]
      exact ⟨hxs, by simp [honline, hnode]⟩
    have hne : (samples.filter (fun y => !y.online && y.node == v)).map (·.time) ≠ [] := by
      intro hemp
      rw [List.map_eq_nil_iff] at hemp
      rw [hemp] at hxf
      exact List.not_mem_nil x hxf
    obtain ⟨t, ht⟩ : ∃ t,
        seriesMin ((samples.filter (fun y => !y.online && y.node == v)).map (·.time)) = some t := by
      cases hl : (samples.filter (fun y => !y.online && y.node == v)).map (·.time) with
      | nil => exact absurd hl hne
      | cons a as =>
        exact ⟨as.foldl (fun a b => if b < a then b else a) a, rfl⟩
    refine ⟨t, ht, ?_, ?_⟩
    · obtain ⟨y, hyf, hyt⟩ := List.mem_map.mp (seriesMin_mem ht)
      have hmem := List.mem_filter.mp hyf
      have hprops := hmem.2
      simp only [Bool.and_eq_true, Bool.not_eq_true', beq_iff_eq] at hprops
      exact ⟨y, hmem.1, hprops.2, hprops.1, hyt⟩
    · intro z hz hznode hzoff
      have hzf : z ∈ samples.filter (fun y => !y.online && y.node == v) := by
        rw [List.mem_filter]
        exact ⟨hz, by simp [hzoff, hznode]⟩
      exact seriesMin_le ht _ (List.mem_map_of_mem _ hzf)
  · intro hall
    have hnil : samples.filter (fun y => !y.online && y.node == v) = [] := by
      rw [List.filter_eq_nil_iff]
      intro a ha hcontra
      simp only [Bool.and_eq_true, Bool.not_eq_true', beq_iff_eq] at hcontra
      have := hall a ha hcontra.2
      rw [this] at hcontra
      exact absurd hcontra.1 (by simp)
    show seriesMin ((samples.filter (fun y => !y.online && y.node == v)).map (·.time)) = none
    rw [hnil]
    rfl

/-- Witness for C9 at Scenario D/E: node 3 (offline at t=2,3) is mapped to
its minimum offline time, node 4 (always online) is absent. -/
theorem C9_first_offline_min_witness :
    (∃ t, firstOfflineTime scenarioDConn 3 = some t ∧
      (∃ x ∈ scenarioDConn, x.node = 3 ∧ x.online = false ∧ x.time = t) ∧
      (∀ x ∈ scenarioDConn, x.node = 3 → x.online = false → t ≤ x.time)) ∧
    firstOfflineTime scenarioDConn 4 = none :=
  ⟨(C9_first_offline_min scenarioDConn 3).1 (by decide),
   (C9_first_offline_min scenarioDConn 4).2 (by decide)⟩

/-! ### C10: inferred series size is a real run length -/

theorem foldMode_mem (l0 : List Nat) :
    ∀ (ys : List Nat) (best : Nat), best ∈ l0 → (∀ y ∈ ys, y ∈ l0) →
      ys.foldl (fun b y => if l0.count b < l0.count y then y else b) best ∈ l0 := by
  intro ys
  induction ys with
  | nil => intro best hb _; exact hb
  | cons y ys' ih =>
    intro best hb hys
    simp only [List.foldl_cons]
    refine ih _ ?_ (fun z hz => hys z (List.mem_cons_of_mem _ hz))
    by_cases h : l0.count best < l0.count y
    · simp only [if_pos h]
      exact hys y (List.mem_cons_self _ _)
    · simp only [if_neg h]
      exact hb

theorem firstMode_mem (l : List Nat) (h : l ≠ []) : firstMode l ∈ l := by
  match l with
  | [] => exact absurd rfl h
  | x :: xs =>
    show (x :: xs).foldl (fun b y => if (x :: xs).count b < (x :: xs).count y then y else b) x
        ∈ x :: xs
    exact foldMode_mem (x :: xs) (x :: xs) x (List.mem_cons_self _ _) (fun z hz => hz)

theorem runLengthsAux_ne_nil : ∀ (rest : List String) (cur : String) (cnt : Nat),
    runLengthsAux cur cnt rest ≠ [] := by
  intro rest
  induction rest with
  | nil => intro cur cnt; simp [runLengthsAux]
  | cons n rs ih =>
    intro cur cnt
    unfold runLengthsAux
    by_cases h : n == cur
    · simp only [h, if_true]
      exact ih cur (cnt + 1)
    · simp [h]

theorem runLengthsAux_pos : ∀ (rest : List String) (cur : String) (cnt : Nat),
    1 ≤ cnt → ∀ x ∈ runLengthsAux cur cnt rest, 1 ≤ x := by
  intro rest
  induction rest with
  | nil =>
    intro cur cnt hc x hx
    simp only [runLengthsAux, List.mem_singleton] at hx
    exact hx ▸ hc
  | cons n rs ih =>
    intro cur cnt hc x hx
    unfold runLengthsAux at hx
    by_cases h : n == cur
    · simp only [h, if_true] at hx
      exact ih cur (cnt + 1) (Nat.le_succ_of_le hc) x hx
    · simp only [h, Bool.false_eq_true, if_false, List.mem_cons] at hx
      rcases hx with rfl | hx'
      · exact hc
      · exact ih n 1 (le_refl 1) x hx'

theorem runLengthsAux_sum : ∀ (rest : List String) (cur : String) (cnt : Nat),
    (runLengthsAux cur cnt rest).sum = cnt + rest.length := by
  intro rest
  induction rest with
  | nil => intro cur cnt; simp [runLengthsAux]
  | cons n rs ih =>
    intro cur cnt
    unfold runLengthsAux
    by_cases h : n == cur
    · simp only [h, if_true, ih cur (cnt + 1), List.length_cons]
      omega
    · simp only [h, Bool.false_eq_true, if_false, List.sum_cons, ih n 1, List.length_cons]
      omega

/-- C10: whenever series-size inference succeeds, the inferred `k` satisfies
`1 ≤ k ≤ number of sends` and `k` is the length of a run actually present in
the sorted node sequence. -/
theorem C10_inferred_size_is_run_length (ds : List PacketEvent) (k : Nat)
    (h : infer_series_size_from_runs ds = some k) :
    1 ≤ k ∧ k ≤ ds.length ∧ k ∈ runLengths ((sortLe leTimeUid ds).map (·.node)) := by
  unfold infer_series_size_from_runs at h
  cases hm : (sortLe leTimeUid ds).map (·.node) with
  | nil => rw [hm] at h; exact absurd h (by simp)
  | cons n rest =>
    rw [hm] at h
    simp only [Option.some.injEq] at h
    have hrl : runLengths (n :: rest) = runLengthsAux n 1 rest := rfl
    rw [hrl] at h
    have hmem : firstMode (runLengthsAux n 1 rest) ∈ runLengthsAux n 1 rest :=
      firstMode_mem _ (runLengthsAux_ne_nil rest n 1)
    have hk : k ∈ runLengthsAux n 1 rest := h ▸ hmem
    refine ⟨runLengthsAux_pos rest n 1 (le_refl 1) k hk, ?_, by rw [hrl]; exact hk⟩
    have hsum : (runLengthsAux n 1 rest).sum = 1 + rest.length := runLengthsAux_sum rest n 1
    have hle : k ≤ (runLengthsAux n 1 rest).sum :=
      List.single_le_sum (fun x _ => Nat.zero_le x) k hk
    have hlen : ((sortLe leTimeUid ds).map (·.node)).length = ds.length := by
      rw [List.length_map, sortLe_length]
    rw [hm] at hlen
    simp only [List.length_cons] at hlen
    omega

/-- Witness for C10 on a concrete two-send log: the inferred size 1 is a run
length of the sorted node sequence and lies within the bounds. -/
theorem C10_inferred_size_is_run_length_witness :
    1 ≤ 1 ∧ 1 ≤ twoRunsLog.length ∧
      1 ∈ runLengths ((sortLe leTimeUid twoRunsLog).map (·.node)) :=
  C10_inferred_size_is_run_length twoRunsLog 1 (by decide)

/-! ### C2: series-size inference round-trip -/

theorem mkRowsFrom_map_node : ∀ (l : List String) (i : Nat),
    (mkRowsFrom i l).map (·.node) = l := by
  intro l
  induction l with
  | nil => intro i; rfl
  | cons nm rest ih => intro i; simp [mkRowsFrom, ih]

theorem mkRowsFrom_chain : ∀ (l : List String) (i : Nat),
    List.Chain' (fun a b => leTimeUid a b = true) (mkRowsFrom i l) := by
  intro l
  induction l with
  | nil => intro i; simp [mkRowsFrom]
  | cons nm rest ih =>
    intro i
    rw [mkRowsFrom, List.chain'_cons']
    refine ⟨?_, ih (i + 1)⟩
    intro y hy
    cases rest with
    | nil => simp [mkRowsFrom] at hy
    | cons nm2 rest2 =>
      simp only [mkRowsFrom, List.head?_cons, Option.mem_def, Option.some.injEq] at hy
      subst hy
      have hcast : ((i : ℚ)) < ((i + 1 : Nat) : ℚ) := by
        exact_mod_cast Nat.lt_succ_self i
      simp [leTimeUid, hcast]

theorem runLengthsAux_cons (cur : String) (cnt : Nat) (n : String) (rest : List String) :
    runLengthsAux cur cnt (n :: rest) =
      if n == cur then runLengthsAux cur (cnt + 1) rest else cnt :: runLengthsAux n 1 rest := rfl

theorem runLengthsAux_replicate : ∀ (m : Nat) (cur : String) (cnt : Nat) (rest : List String),
    runLengthsAux cur cnt (List.replicate m cur ++ rest) = runLengthsAux cur (cnt + m) rest := by
  intro m
  induction m with
  | zero => intro cur cnt rest; simp
  | succ m ih =>
    intro cur cnt rest
    rw [List.replicate_succ, List.cons_append, runLengthsAux_cons]
    simp only [beq_self_eq_true, if_true]
    have harith : cnt + 1 + m = cnt + (m + 1) := by omega
    rw [ih cur (cnt + 1) rest, harith]

theorem runLengths_flatMap_replicate : ∀ (ns : List String), ns ≠ [] →
    List.Chain' (fun a b => a ≠ b) ns → ∀ L, 1 ≤ L →
    runLengths (ns.flatMap (fun nm => List.replicate L nm)) = List.replicate ns.length L := by
  intro ns
  induction ns with
  | nil => intro h; exact absurd rfl h
  | cons a tl ih =>
    intro _ hchain L hL
    obtain ⟨L', rfl⟩ : ∃ L', L = L' + 1 := ⟨L - 1, by omega⟩
    cases tl with
    | nil =>
      show runLengths (List.replicate (L' + 1) a ++ []) = List.replicate 1 (L' + 1)
      rw [List.append_nil, List.replicate_succ]
      show runLengthsAux a 1 (List.replicate L' a) = List.replicate 1 (L' + 1)
      rw [← List.append_nil (List.replicate L' a), runLengthsAux_replicate]
      simp [runLengthsAux]
      omega
    | cons b tl2 =>
      have hab : a ≠ b := (List.chain'_cons.mp hchain).1
      have hchain2 : List.Chain' (fun a b => a ≠ b) (b :: tl2) := (List.chain'_cons.mp hchain).2
      have hflat : (b :: tl2).flatMap (fun nm => List.replicate (L' + 1) nm) =
          b :: (List.replicate L' b ++ tl2.flatMap (fun nm => List.replicate (L' + 1) nm)) := by
        simp [List.flatMap_cons, List.replicate_succ]
      show runLengths ((a :: b :: tl2).flatMap (fun nm => List.replicate (L' + 1) nm)) = _
      rw [List.flatMap_cons, List.replicate_succ, List.cons_append]
      show runLengthsAux a 1 (List.replicate L' a ++ (b :: tl2).flatMap
        (fun nm => List.replicate (L' + 1) nm)) = _
      rw [runLengthsAux_replicate, hflat]
      unfold runLengthsAux
      have hba : (b == a) = false := by
        simp only [beq_eq_false_iff_ne, ne_eq]
        exact fun hc => hab hc.symm
      simp only [hba, Bool.false_eq_true, if_false]
      have hrec : runLengthsAux b 1 (List.replicate L' b ++ tl2.flatMap
          (fun nm => List.replicate (L' + 1) nm)) =
          runLengths ((b :: tl2).flatMap (fun nm => List.replicate (L' + 1) nm)) := by
        rw [hflat]
        rfl
      rw [hrec, ih (by simp) hchain2 (L' + 1) hL]
      simp [List.replicate_succ]
      omega

theorem foldMode_const (l0 : List Nat) (L : Nat) : ∀ (j : Nat),
    (List.replicate j L).foldl (fun b y => if l0.count b < l0.count y then y else b) L = L := by
  intro j
  induction j with
  | zero => rfl
  | succ j ih =>
    rw [List.replicate_succ, List.foldl_cons, ite_self]
    exact ih

theorem firstMode_replicate (k L : Nat) (hk : 1 ≤ k) :
    firstMode (List.replicate k L) = L := by
  obtain ⟨j, rfl⟩ : ∃ j, k = j + 1 := ⟨k - 1, by omega⟩
  rw [List.replicate_succ]
  show (L :: List.replicate j L).foldl
    (fun b y => if (L :: List.replicate j L).count b < (L :: List.replicate j L).count y
      then y else b) L = L
  rw [List.foldl_cons, ite_self]
  exact foldMode_const (L :: List.replicate j L) L j

/-- C2: on a synthetic log consisting of `ns.length` bursts of exactly `L`
consecutive sends each (adjacent bursts by different nodes, strictly
increasing times), series-size inference returns exactly `L`: the sends are
sorted by `(time, uid)`, partitioned into maximal equal-node runs, and the
most frequent run length (first-encountered on ties) is `L`. -/
theorem C2_series_size_roundtrip (ns : List String) (L : Nat)
    (h1 : ns ≠ []) (h2 : List.Chain' (fun a b => a ≠ b) ns) (hL : 1 ≤ L) :
    infer_series_size_from_runs (mkSeriesLog ns L) = some L := by
  obtain ⟨L', rfl⟩ : ∃ L', L = L' + 1 := ⟨L - 1, by omega⟩
  have hrl := runLengths_flatMap_replicate ns h1 h2 (L' + 1) hL
  unfold infer_series_size_from_runs mkSeriesLog
  rw [sortLe_eq_of_chain leTimeUid _ (mkRowsFrom_chain _ 0), mkRowsFrom_map_node]
  cases ns with
  | nil => exact absurd rfl h1
  | cons a tl =>
    rw [List.flatMap_cons, List.replicate_succ, List.cons_append]
    show some (firstMode (runLengths (a :: (List.replicate L' a ++
      tl.flatMap (fun nm => List.replicate (L' + 1) nm))))) = some (L' + 1)
    have hfold : a :: (List.replicate L' a ++ tl.flatMap (fun nm => List.replicate (L' + 1) nm)) =
        (a :: tl).flatMap (fun nm => List.replicate (L' + 1) nm) := by
      rw [List.flatMap_cons, List.replicate_succ, List.cons_append]
    rw [hfold, hrl, firstMode_replicate _ _ (by simp)]

/-- Witness for C2: three runs (`a`,`b`,`a`) of length 2 each infer size 2. -/
theorem C2_series_size_roundtrip_witness :
    infer_series_size_from_runs (mkSeriesLog ["a", "b", "a"] 2) = some 2 :=
  C2_series_size_roundtrip ["a", "b", "a"] 2 (by simp)
    (List.chain'_cons.mpr ⟨by decide, List.chain'_cons.mpr ⟨by decide, List.chain'_singleton _⟩⟩)
    (by omega)

/-! ### C3: static health scorer bounds -/

theorem ceilDivNat_eq_ceil (n s : Nat) (hs : 1 ≤ s) :
    ceilDivNat n s = ⌈(n : ℚ) / (s : ℚ)⌉₊ := by
  rcases Nat.eq_zero_or_pos n with rfl | hn
  · have h0 : ceilDivNat 0 s = 0 := by
      unfold ceilDivNat
      exact Nat.div_eq_of_lt (by omega)
    rw [h0]
    simp
  · have hq1 : 1 ≤ ceilDivNat n s := by
      unfold ceilDivNat
      rw [Nat.one_le_div_iff (by omega)]
      omega
    have hdm : s * ((n + s - 1) / s) + (n + s - 1) % s = n + s - 1 := Nat.div_add_mod _ _
    have hmod : (n + s - 1) % s < s := Nat.mod_lt _ (by omega)
    have hceil : ceilDivNat n s = (n + s - 1) / s := rfl
    have hcomm : ceilDivNat n s * s = s * ((n + s - 1) / s) := by
      rw [hceil, Nat.mul_comm]
    have hmul1 : (ceilDivNat n s - 1) * s = ceilDivNat n s * s - s := by
      rw [Nat.sub_mul, one_mul]
    have hlo : (ceilDivNat n s - 1) * s < n := by omega
    have hhi : n ≤ ceilDivNat n s * s := by omega
    have hspos : (0 : ℚ) < (s : ℚ) := by exact_mod_cast (by omega : 0 < s)
    rw [eq_comm, Nat.ceil_eq_iff (by omega)]
    constructor
    · rw [lt_div_iff₀ hspos]
      exact_mod_cast hlo
    · rw [div_le_iff₀ hspos]
      exact_mod_cast hhi

/-- C3: every record of the static health scorer (with `series_size ≥ 1`) has
`total_series = ceil(sent_count / series_size)`, `healthy_series ≤
total_series`, a health fraction in `[0,1]`, and fraction exactly `0` for a
node with no sends. -/
theorem C3_health_record_bounds (merged : List MergedRow) (normal spine : List String)
    (s : Nat) (hs : 1 ≤ s) (r : HealthRecord)
    (hr : r ∈ compute_health merged normal spine s) :
    r.total_series = ⌈(sentCount merged r.node : ℚ) / (s : ℚ)⌉₊ ∧
    r.healthy_series ≤ r.total_series ∧
    0 ≤ r.health_fraction ∧ r.health_fraction ≤ 1 ∧
    (sentCount merged r.node = 0 → r.health_fraction = 0) := by
  obtain ⟨v, _, heq⟩ := List.mem_map.mp hr
  subst heq
  have hnode : (healthRecord merged spine s v).node = v := rfl
  have hlen : (nodeSub merged v).length = sentCount merged v := by
    unfold nodeSub sentCount
    exact sortLe_length _ _
  have htot : (healthRecord merged spine s v).total_series =
      ceilDivNat (sentCount merged v) s := by
    show ceilDivNat (nodeSub merged v).length s = _
    rw [hlen]
  have hhealthy : (healthRecord merged spine s v).healthy_series ≤
      (healthRecord merged spine s v).total_series := by
    show healthyCount spine (nodeSub merged v) s (ceilDivNat (nodeSub merged v).length s) ≤
      ceilDivNat (nodeSub merged v).length s
    unfold healthyCount
    calc ((List.range (ceilDivNat (nodeSub merged v).length s)).filter _).length
        ≤ (List.range (ceilDivNat (nodeSub merged v).length s)).length :=
          List.length_filter_le _ _
      _ = ceilDivNat (nodeSub merged v).length s := List.length_range _
  refine ⟨by rw [hnode, htot, ceilDivNat_eq_ceil _ _ hs], hhealthy, ?_, ?_, ?_⟩
  · show 0 ≤ (if 0 < ceilDivNat (nodeSub merged v).length s then
      ((healthyCount spine (nodeSub merged v) s (ceilDivNat (nodeSub merged v).length s) : ℚ)) /
        ((ceilDivNat (nodeSub merged v).length s : ℚ)) else 0)
    by_cases h : 0 < ceilDivNat (nodeSub merged v).length s
    · rw [if_pos h]
      positivity
    · rw [if_neg h]
  · show (if 0 < ceilDivNat (nodeSub merged v).length s then
      ((healthyCount spine (nodeSub merged v) s (ceilDivNat (nodeSub merged v).length s) : ℚ)) /
        ((ceilDivNat (nodeSub merged v).length s : ℚ)) else 0) ≤ 1
    by_cases h : 0 < ceilDivNat (nodeSub merged v).length s
    · rw [if_pos h]
      rw [div_le_one (by exact_mod_cast h)]
      exact_mod_cast hhealthy
    · rw [if_neg h]
      norm_num
  · intro hzero
    rw [hnode] at hzero
    have hlen0 : (nodeSub merged v).length = 0 := by rw [hlen, hzero]
    have htot0 : ceilDivNat (nodeSub merged v).length s = 0 := by
      rw [hlen0]
      unfold ceilDivNat
      exact Nat.div_eq_of_lt (by omega)
    show (if 0 < ceilDivNat (nodeSub merged v).length s then
      ((healthyCount spine (nodeSub merged v) s (ceilDivNat (nodeSub merged v).length s) : ℚ)) /
        ((ceilDivNat (nodeSub merged v).length s : ℚ)) else 0) = 0
    rw [htot0]
    norm_num

/-- Witness for C3 on a concrete log (node `"0"`, two sends, series size 2). -/
theorem C3_health_record_bounds_witness :
    (healthRecord smallHealthLog ["1S"] 2 "0").total_series =
      ⌈(sentCount smallHealthLog (healthRecord smallHealthLog ["1S"] 2 "0").node : ℚ) / (2 : ℚ)⌉₊ ∧
    (healthRecord smallHealthLog ["1S"] 2 "0").healthy_series ≤
      (healthRecord smallHealthLog ["1S"] 2 "0").total_series ∧
    0 ≤ (healthRecord smallHealthLog ["1S"] 2 "0").health_fraction ∧
    (healthRecord smallHealthLog ["1S"] 2 "0").health_fraction ≤ 1 ∧
    (sentCount smallHealthLog (healthRecord smallHealthLog ["1S"] 2 "0").node = 0 →
      (healthRecord smallHealthLog ["1S"] 2 "0").health_fraction = 0) := by
  have h := C3_health_record_bounds smallHealthLog ["0"] ["1S"] 2 (by omega)
    (healthRecord smallHealthLog ["1S"] 2 "0") (by simp [compute_health])
  exact h

/-! ### C1: correlation join semantics -/

theorem filter_uid_eq_find_toList (u : Nat) :
    ∀ (recvs : List PacketEvent), ((recvs.map (·.uid)).Nodup) →
      recvs.filter (fun r => r.uid == u) = (recvs.find? (fun r => r.uid == u)).toList := by
  intro recvs
  induction recvs with
  | nil => intro _; rfl
  | cons r rs ih =>
    intro hu
    rw [List.map_cons, List.nodup_cons] at hu
    by_cases hr : (r.uid == u) = true
    · have hru : r.uid = u := beq_iff_eq.mp hr
      have hnil : rs.filter (fun x => x.uid == u) = [] := by
        rw [List.filter_eq_nil_iff]
        intro a ha hau
        exact hu.1 (by
          rw [hru, ← beq_iff_eq.mp hau]
          exact List.mem_map_of_mem (·.uid) ha)
      simp only [List.filter_cons, List.find?_cons, hr, if_true, hnil]
      rfl
    · have hrf : (r.uid == u) = false := by
        exact Bool.not_eq_true _ ▸ hr
      simp only [List.filter_cons, List.find?_cons, hrf, Bool.false_eq_true, if_false]
      exact ih hu.2

/-- C1 (amended): when the receive uids are pairwise distinct, the merge
produces exactly one row per send, carrying the first receive (in join
order) with a matching uid, if any. -/
theorem C1_amended_merge_unique_uids (sends recvs : List PacketEvent)
    (hu : (recvs.map (·.uid)).Nodup) :
    mergePackets sends recvs = sends.map (fun s =>
      match recvs.find? (fun r => r.uid == s.uid) with
      | none => ⟨s.uid, s.time, s.node, s.size, none⟩
      | some r => ⟨s.uid, s.time, s.node, s.size, some ⟨r.node, r.time⟩⟩) := by
  unfold mergePackets
  induction sends with
  | nil => rfl
  | cons s ss ih =>
    rw [List.flatMap_cons, List.map_cons, filter_uid_eq_find_toList s.uid recvs hu, ih]
    cases hf : recvs.find? (fun r => r.uid == s.uid) with
    | none => rfl
    | some r => rfl

/-- Witness for the amended C1 on a log with distinct receive uids. -/
theorem C1_amended_merge_unique_uids_witness :
    mergePackets (sendRows uniqRecvLog) (recvRows uniqRecvLog) =
      (sendRows uniqRecvLog).map (fun s =>
        match (recvRows uniqRecvLog).find? (fun r => r.uid == s.uid) with
        | none => ⟨s.uid, s.time, s.node, s.size, none⟩
        | some r => ⟨s.uid, s.time, s.node, s.size, some ⟨r.node, r.time⟩⟩) :=
  C1_amended_merge_unique_uids (sendRows uniqRecvLog) (recvRows uniqRecvLog) (by decide)

/-- C1 counterexample: a log whose single send's uid is matched by two
receive events produces TWO merged rows for that one send (the pandas left
join multiplies matches), not one row with the first match. -/
theorem C1_counterexample_duplicate_receives :
    (load_and_merge_packets dupRecvLog).merged =
      [⟨1, 0, "0", 5, some ⟨"1S", 1⟩⟩, ⟨1, 0, "0", 5, some ⟨"2S", 2⟩⟩] ∧
    (load_and_merge_packets dupRecvLog).df_send.length = 1 ∧
    (load_and_merge_packets dupRecvLog).merged.length ≠ 1 := by
  refine ⟨by decide, by decide, by decide⟩

/-! ### C8: the explicit node-count is ignored -/

/-- C8 counterexample: with sends observed from nodes `"5"` and `"7S"` and an
explicit node-count of 3 supplied on the command line, the normal set is the
observed `["5"]`, not the integer range `["0","1","2"]`: `main` parses
`--nodes` but never passes it on. -/
theorem C8_counterexample_nodes_arg_ignored :
    mainNormalIds sparseNodesLog (some 3) = ["5"] ∧
    mainNormalIds sparseNodesLog (some 3) ≠ ["0", "1", "2"] :=
  ⟨by decide, by decide⟩

/-- C8 (amended): the normal-id set is independent of the supplied node-count
and always equals the sorted set of node ids observed among the merged sends
that lack the spine suffix. -/
theorem C8_amended_normal_ids_observed (events : List PacketEvent) (c1 c2 : Option Nat) :
    mainNormalIds events c1 = mainNormalIds events c2 ∧
    mainNormalIds events c1 =
      sortLe leStr ((uniqueFirst (((load_and_merge_packets events).merged).map (·.node))).filter
        (fun n => !isSpineId n)) :=
  ⟨rfl, rfl⟩

/-! ### C5: delivery ratio definedness and averaging -/

theorem qosAcc_records (merged : List MergedRow) (t0 t1 : ℚ) :
    ∀ (ns : List String) (acc : QosAcc),
      (ns.foldl (qosStep merged t0 t1) acc).records =
        acc.records ++ ns.map (qosRecord merged t0 t1) := by
  intro ns
  induction ns with
  | nil => intro acc; simp
  | cons v vs ih =>
    intro acc
    rw [List.foldl_cons, ih, List.map_cons]
    show (qosStep merged t0 t1 acc v).records ++ _ = _
    simp [qosStep]

theorem qosAcc_pdr_list (merged : List MergedRow) (t0 t1 : ℚ) :
    ∀ (ns : List String) (acc : QosAcc),
      (ns.foldl (qosStep merged t0 t1) acc).pdr_list =
        acc.pdr_list ++ (ns.map (qosRecord merged t0 t1)).filterMap (·.pdr) := by
  intro ns
  induction ns with
  | nil => intro acc; simp
  | cons v vs ih =>
    intro acc
    rw [List.foldl_cons, ih, List.map_cons]
    cases hp : (qosRecord merged t0 t1 v).pdr with
    | none => simp [qosStep, List.filterMap_cons, hp]
    | some p => simp [qosStep, List.filterMap_cons, hp]

/-- C5: the per-node delivery ratio is `received/sent ∈ [0,1]` when the node
sent anything, the explicit undefined marker (`none`, modelling NaN) when it
sent nothing, and the network average is the mean of exactly the defined
ratios (undefined ones are excluded, not counted as 0). -/
theorem C5_delivery_ratio_defined (merged : List MergedRow) (normal spine : List String)
    (t0 t1 : ℚ) :
    (∀ v, 0 < sentCount merged v →
      (qosRecord merged t0 t1 v).pdr =
        some ((receivedCount merged v : ℚ) / (sentCount merged v : ℚ))) ∧
    (∀ v p, (qosRecord merged t0 t1 v).pdr = some p → 0 ≤ p ∧ p ≤ 1) ∧
    (∀ v, sentCount merged v = 0 → (qosRecord merged t0 t1 v).pdr = none) ∧
    (compute_qos merged normal spine t0 t1).2.avg_pdr =
      npMean (((compute_qos merged normal spine t0 t1).1).filterMap (·.pdr)) := by
  have hfield : ∀ v, (qosRecord merged t0 t1 v).pdr =
      if 0 < sentCount merged v then
        some ((receivedCount merged v : ℚ) / (sentCount merged v : ℚ))
      else none := fun v => rfl
  refine ⟨?_, ?_, ?_, ?_⟩
  · intro v h
    rw [hfield, if_pos h]
  · intro v p hp
    rw [hfield] at hp
    by_cases h : 0 < sentCount merged v
    · rw [if_pos h, Option.some.injEq] at hp
      subst hp
      constructor
      · positivity
      · rw [div_le_one (by exact_mod_cast h)]
        have : receivedCount merged v ≤ sentCount merged v := by
          unfold receivedCount receivedRowsOf sentCount
          exact List.length_filter_le _ _
        exact_mod_cast this
    · rw [if_neg h] at hp
      exact absurd hp (by simp)
  · intro v h
    rw [hfield, if_neg (by omega)]
  · show npMean ((normal.foldl (qosStep merged t0 t1) ⟨[], [], [], []⟩).pdr_list) =
      npMean (((normal.foldl (qosStep merged t0 t1) ⟨[], [], [], []⟩).records).filterMap (·.pdr))
    rw [qosAcc_records, qosAcc_pdr_list]
    simp

/-- Witness for C5 at Scenario B/C-style data: node `"1"` sent nothing and
gets `none` (not 0); node `"0"`'s ratio is `received/sent`; the average uses
only the defined ratios. -/
theorem C5_delivery_ratio_defined_witness :
    (qosRecord scenarioCLog 0 10 "1").pdr = none ∧
    (qosRecord scenarioCLog 0 10 "0").pdr =
      some ((receivedCount scenarioCLog "0" : ℚ) / (sentCount scenarioCLog "0" : ℚ)) ∧
    (compute_qos scenarioCLog ["0", "1"] ["1S"] 0 10).2.avg_pdr =
      npMean (((compute_qos scenarioCLog ["0", "1"] ["1S"] 0 10).1).filterMap (·.pdr)) :=
  ⟨(C5_delivery_ratio_defined scenarioCLog ["0", "1"] ["1S"] 0 10).2.2.1 "1" (by decide),
   (C5_delivery_ratio_defined scenarioCLog ["0", "1"] ["1S"] 0 10).1 "0" (by decide),
   (C5_delivery_ratio_defined scenarioCLog ["0", "1"] ["1S"] 0 10).2.2.2⟩

/-! ### C6: throughput and the zero-duration convention -/

/-- C6 (amended): throughput is the delivered bit total divided by
`sim_duration`, where `sim_duration` is `t1 - t0` when positive and the
fallback `1.0` otherwise — so at zero duration a receiving node reports its
delivered bits, not 0. -/
theorem C6_amended_throughput_formula (merged : List MergedRow) (t0 t1 : ℚ) (v : String) :
    (qosRecord merged t0 t1 v).throughput = deliveredBits merged v / simDuration t0 t1 ∧
    (¬ 0 < t1 - t0 → simDuration t0 t1 = 1) := by
  constructor
  · have hfield : (qosRecord merged t0 t1 v).throughput =
        if 0 < receivedCount merged v then deliveredBits merged v / simDuration t0 t1
        else 0 := rfl
    rw [hfield]
    by_cases h : 0 < receivedCount merged v
    · rw [if_pos h]
    · rw [if_neg h]
      have hzero : receivedCount merged v = 0 := by omega
      have h0 : receivedRowsOf merged v = [] := by
        unfold receivedCount at hzero
        exact List.length_eq_zero.mp hzero
      unfold deliveredBits
      rw [h0]
      simp
  · intro h
    unfold simDuration
    rw [if_neg h]

/-- Witness for the amended C6 at a zero-width time span. -/
theorem C6_amended_throughput_formula_witness :
    (qosRecord zeroDurLog 0 0 "0").throughput = deliveredBits zeroDurLog "0" / simDuration 0 0 ∧
    simDuration 0 0 = 1 :=
  ⟨(C6_amended_throughput_formula zeroDurLog 0 0 "0").1,
   (C6_amended_throughput_formula zeroDurLog 0 0 "0").2 (by norm_num)⟩

/-- C6 counterexample: with `t_end = t_start` and one delivered 100-byte
packet, the reported throughput is 800 bits (the divisor falls back to 1.0),
not the 0 the claim requires at zero duration. -/
theorem C6_counterexample_zero_duration :
    (qosRecord zeroDurLog 0 0 "0").throughput = 800 ∧ (800 : ℚ) ≠ 0 := by
  constructor
  · have hfield : (qosRecord zeroDurLog 0 0 "0").throughput =
        if 0 < receivedCount zeroDurLog "0" then
          deliveredBits zeroDurLog "0" / simDuration 0 0
        else 0 := rfl
    have hcnt : receivedCount zeroDurLog "0" = 1 := by decide
    have hrows : receivedRowsOf zeroDurLog "0" = zeroDurLog := by decide
    rw [hfield, hcnt, if_pos (by norm_num)]
    unfold deliveredBits
    rw [hrows]
    unfold simDuration
    norm_num [zeroDurLog]
  · norm_num

/-! ### C7: no jitter is computed; only the delay mean exists -/

/-- C7 (amended): the QoS record of a node with at least one delivered packet
carries `avg_delay` equal to the arithmetic mean of its per-packet delays;
the record has no jitter statistic at all (its fields are exactly node,
total_sent, total_received, pdr, avg_delay, throughput). -/
theorem C7_amended_delay_mean (merged : List MergedRow) (t0 t1 : ℚ) (v : String)
    (h : deliveredDelays merged v ≠ []) :
    (qosRecord merged t0 t1 v).avg_delay =
      some ((deliveredDelays merged v).sum / ((deliveredDelays merged v).length : ℚ)) := by
  have hfield : (qosRecord merged t0 t1 v).avg_delay =
      if 0 < receivedCount merged v then
        some ((deliveredDelays merged v).sum / ((deliveredDelays merged v).length : ℚ))
      else none := rfl
  have hne : receivedRowsOf merged v ≠ [] := by
    intro h0
    apply h
    unfold deliveredDelays
    rw [h0]
    rfl
  have hpos : 0 < receivedCount merged v := by
    unfold receivedCount
    cases hr : receivedRowsOf merged v with
    | nil => exact absurd hr hne
    | cons a as => simp
  rw [hfield, if_pos hpos]

/-- Witness for the amended C7 at Scenario C (delays 1 and 3): the delay mean
is 2. -/
theorem C7_amended_delay_mean_witness :
    (qosRecord scenarioCLog 0 10 "0").avg_delay =
      some ((deliveredDelays scenarioCLog "0").sum /
        ((deliveredDelays scenarioCLog "0").length : ℚ)) ∧
    (qosRecord scenarioCLog 0 10 "0").avg_delay = some 2 := by
  have h1 := C7_amended_delay_mean scenarioCLog 0 10 "0" (by decide)
  refine ⟨h1, ?_⟩
  rw [h1]
  have hd : deliveredDelays scenarioCLog "0" =
      [(1 : ℚ) - 0, (5 : ℚ) - 2] := by
    norm_num [deliveredDelays, receivedRowsOf, scenarioCLog, List.filter_cons,
      List.filterMap_cons]
  rw [hd]
  norm_num

/-- C7 counterexample: the complete per-node QoS output at Scenario C.  The
record type mirrors the script's columns (node, total_sent, total_received,
pdr, avg_delay, throughput); there is no jitter value anywhere in the output,
while the claim requires a jitter ≈ 1.414 for delays {1.0, 3.0}. -/
theorem C7_counterexample_no_jitter_field :
    (compute_qos scenarioCLog ["0"] ["1S"] 0 10).1 = [⟨"0", 2, 2, some 1, some 2, 160⟩] := by
  show (["0"].foldl (qosStep scenarioCLog 0 10) ⟨[], [], [], []⟩).records = _
  rw [qosAcc_records]
  simp only [List.nil_append, List.map_cons, List.map_nil]
  have hq : qosRecord scenarioCLog 0 10 "0" = ⟨"0", 2, 2, some 1, some 2, 160⟩ := by
    norm_num [qosRecord, scenarioCLog, simDuration, List.filter_cons, List.filterMap_cons]
  rw [hq]

/-! ### C4: cumulative windowing -/

theorem insertLe_cons (le : α → α → Bool) (x y : α) (ys : List α) :
    insertLe le x (y :: ys) =
      if le x y then x :: y :: ys else y :: insertLe le x ys := rfl

theorem insertLe_append_of_last (le : α → α → Bool) (P : α → Bool) (x : α)
    (hx : P x = true) (hLT : ∀ a b, P a = true → P b = false → le a b = true) :
    ∀ (A C : List α), (∀ b ∈ C, P b = false) →
      insertLe le x (A ++ C) = insertLe le x A ++ C := by
  intro A
  induction A with
  | nil =>
    intro C hC
    cases C with
    | nil => rfl
    | cons c cs =>
      show insertLe le x (c :: cs) = [x] ++ (c :: cs)
      rw [insertLe_cons, if_pos (hLT x c hx (hC c (List.mem_cons_self _ _)))]
      rfl
  | cons a as ih =>
    intro C hC
    show insertLe le x (a :: (as ++ C)) = insertLe le x (a :: as) ++ C
    rw [insertLe_cons, insertLe_cons]
    by_cases h : le x a
    · rw [if_pos h, if_pos h]
      rfl
    · rw [if_neg h, if_neg h]
      rw [List.cons_append]
      rw [ih C hC]

theorem insertLe_append_of_skip (le : α → α → Bool) (P : α → Bool) (x : α)
    (hx : P x = false) (hGE : ∀ a b, P a = true → P b = false → le b a = false) :
    ∀ (A C : List α), (∀ a ∈ A, P a = true) →
      insertLe le x (A ++ C) = A ++ insertLe le x C := by
  intro A
  induction A with
  | nil => intro C _; rfl
  | cons a as ih =>
    intro C hA
    show insertLe le x (a :: (as ++ C)) = (a :: as) ++ insertLe le x C
    rw [insertLe_cons]
    rw [if_neg (by
      rw [hGE a x (hA a (List.mem_cons_self _ _)) hx]
      simp)]
    rw [List.cons_append, ih C (fun z hz => hA z (List.mem_cons_of_mem _ hz))]

theorem sortLe_filter_partition (le : α → α → Bool) (P : α → Bool)
    (hLT : ∀ a b, P a = true → P b = false → le a b = true ∧ le b a = false) :
    ∀ l : List α, ∃ C, sortLe le l = sortLe le (l.filter P) ++ C ∧ ∀ b ∈ C, P b = false := by
  intro l
  induction l with
  | nil => exact ⟨[], rfl, by simp⟩
  | cons x xs ih =>
    obtain ⟨C, hEq, hC⟩ := ih
    by_cases hx : P x = true
    · refine ⟨C, ?_, hC⟩
      rw [List.filter_cons_of_pos hx]
      show insertLe le x (sortLe le xs) = insertLe le x (sortLe le (xs.filter P)) ++ C
      rw [hEq]
      exact insertLe_append_of_last le P x hx (fun a b ha hb => (hLT a b ha hb).1) _ C hC
    · have hxf : P x = false := by
        cases h : P x
        · rfl
        · exact absurd h hx
      refine ⟨insertLe le x C, ?_, ?_⟩
      · rw [List.filter_cons_of_neg (by simp [hxf])]
        show insertLe le x (sortLe le xs) = sortLe le (xs.filter P) ++ insertLe le x C
        rw [hEq]
        exact insertLe_append_of_skip le P x hxf (fun a b ha hb => (hLT a b ha hb).2) _ C
          (fun a ha => List.mem_filter.mp ((mem_sortLe le a _).mp ha) |>.2)
      · intro b hb
        rcases (mem_insertLe le x b C).mp hb with rfl | hb'
        · exact hxf
        · exact hC b hb'

theorem window_filter_eq (merged : List MergedRow) (v : String) (c1 c2 : ℚ) (hc : c1 ≤ c2) :
    (merged.filter (fun r => decide (r.time_send ≤ c1))).filter (fun r => r.node == v) =
      ((merged.filter (fun r => decide (r.time_send ≤ c2))).filter
        (fun r => r.node == v)).filter (fun r => decide (r.time_send ≤ c1)) := by
  rw [List.filter_filter, List.filter_filter, List.filter_filter]
  apply List.filter_congr
  intro r _
  by_cases h1 : r.time_send ≤ c1
  · have h2 : r.time_send ≤ c2 := le_trans h1 hc
    simp [h1, h2]
  · simp [h1]

theorem chunkAt_append (A C : List MergedRow) (s i : Nat) (h : i * s ≤ A.length) :
    chunkAt (A ++ C) s i = chunkAt A s i ++ C.take (s - (A.drop (i * s)).length) := by
  unfold chunkAt
  rw [List.drop_append_eq_append_drop, Nat.sub_eq_zero_of_le h, List.drop_zero,
    List.take_append_eq_append_take]

theorem chunkHealthy_mono (spine : List String) (c extra : List MergedRow)
    (h : chunkHealthy spine c = true) : chunkHealthy spine (c ++ extra) = true := by
  unfold chunkHealthy at h ⊢
  rw [List.any_append, h]
  rfl

theorem ceilDivNat_mono (s : Nat) {m n : Nat} (h : m ≤ n) :
    ceilDivNat m s ≤ ceilDivNat n s := by
  unfold ceilDivNat
  exact Nat.div_le_div_right (by omega)

theorem chunk_index_bound (n s i : Nat) (hs : 1 ≤ s) (hi : i < ceilDivNat n s) :
    i * s ≤ n := by
  unfold ceilDivNat at hi
  have h1 : i + 1 ≤ (n + s - 1) / s := hi
  have h2 : (i + 1) * s ≤ n + s - 1 := by
    rw [← Nat.le_div_iff_mul_le (by omega)]
    exact h1
  have h3 : (i + 1) * s = i * s + s := by rw [Nat.add_mul, one_mul]
  omega

theorem healthyCount_mono_append (spine : List String) (s : Nat) (hs : 1 ≤ s)
    (A C : List MergedRow) :
    healthyCount spine A s (ceilDivNat A.length s) ≤
      healthyCount spine (A ++ C) s (ceilDivNat (A ++ C).length s) := by
  unfold healthyCount
  rw [← List.countP_eq_length_filter, ← List.countP_eq_length_filter]
  have htot : ceilDivNat A.length s ≤ ceilDivNat (A ++ C).length s :=
    ceilDivNat_mono s (by rw [List.length_append]; omega)
  calc List.countP (fun i => chunkHealthy spine (chunkAt A s i)) (List.range (ceilDivNat A.length s))
      ≤ List.countP (fun i => chunkHealthy spine (chunkAt (A ++ C) s i))
          (List.range (ceilDivNat A.length s)) := by
        apply List.countP_mono_left
        intro i hi hchunk
        have hib : i * s ≤ A.length :=
          chunk_index_bound A.length s i hs (List.mem_range.mp hi)
        rw [chunkAt_append A C s i hib]
        exact chunkHealthy_mono spine _ _ hchunk
    _ ≤ List.countP (fun i => chunkHealthy spine (chunkAt (A ++ C) s i))
          (List.range (ceilDivNat (A ++ C).length s)) := by
        have hsplit : ceilDivNat (A ++ C).length s =
            ceilDivNat A.length s + (ceilDivNat (A ++ C).length s - ceilDivNat A.length s) := by
          omega
        rw [hsplit, List.range_add, List.countP_append]
        exact Nat.le_add_right _ _

theorem window_node_mono (merged : List MergedRow) (spine : List String) (v : String)
    (s : Nat) (hs : 1 ≤ s) (c1 c2 : ℚ) (hc : c1 ≤ c2) :
    (healthyCount spine (nodeSub (merged.filter (fun r => decide (r.time_send ≤ c1))) v) s
        (ceilDivNat (nodeSub (merged.filter (fun r => decide (r.time_send ≤ c1))) v).length s) ≤
      healthyCount spine (nodeSub (merged.filter (fun r => decide (r.time_send ≤ c2))) v) s
        (ceilDivNat (nodeSub (merged.filter (fun r => decide (r.time_send ≤ c2))) v).length s)) ∧
    (ceilDivNat (nodeSub (merged.filter (fun r => decide (r.time_send ≤ c1))) v).length s ≤
      ceilDivNat (nodeSub (merged.filter (fun r => decide (r.time_send ≤ c2))) v).length s) := by
  have hLT : ∀ a b : MergedRow, (decide (a.time_send ≤ c1)) = true →
      (decide (b.time_send ≤ c1)) = false →
      leTime a b = true ∧ leTime b a = false := by
    intro a b ha hb
    rw [decide_eq_true_eq] at ha
    have hb' : ¬ b.time_send ≤ c1 := of_decide_eq_false hb
    have hab : a.time_send < b.time_send := lt_of_le_of_lt ha (not_le.mp hb')
    constructor
    · unfold leTime
      simp [le_of_lt hab]
    · unfold leTime
      simp [hab]
  obtain ⟨C, hEq, _⟩ := sortLe_filter_partition leTime (fun r => decide (r.time_send ≤ c1)) hLT
    ((merged.filter (fun r => decide (r.time_send ≤ c2))).filter (fun r => r.node == v))
  have hsub : nodeSub (merged.filter (fun r => decide (r.time_send ≤ c2))) v =
      nodeSub (merged.filter (fun r => decide (r.time_send ≤ c1))) v ++ C := by
    unfold nodeSub
    rw [hEq, ← window_filter_eq merged v c1 c2 hc]
  rw [hsub]
  exact ⟨healthyCount_mono_append spine s hs _ C,
    ceilDivNat_mono s (by rw [List.length_append]; omega)⟩

theorem foldl_window_mono (merged : List MergedRow) (spine : List String) (s : Nat)
    (hs : 1 ≤ s) (c1 c2 : ℚ) (hc : c1 ≤ c2) :
    ∀ (ns : List String) (a1 a2 : Nat × Nat), a1.1 ≤ a2.1 → a1.2 ≤ a2.2 →
      (ns.foldl (fun acc v =>
        let sub := nodeSub (merged.filter (fun r => decide (r.time_send ≤ c1))) v
        let cnt := ceilDivNat sub.length s
        (acc.1 + healthyCount spine sub s cnt, acc.2 + cnt)) a1).1 ≤
      (ns.foldl (fun acc v =>
        let sub := nodeSub (merged.filter (fun r => decide (r.time_send ≤ c2))) v
        let cnt := ceilDivNat sub.length s
        (acc.1 + healthyCount spine sub s cnt, acc.2 + cnt)) a2).1 ∧
      (ns.foldl (fun acc v =>
        let sub := nodeSub (merged.filter (fun r => decide (r.time_send ≤ c1))) v
        let cnt := ceilDivNat sub.length s
        (acc.1 + healthyCount spine sub s cnt, acc.2 + cnt)) a1).2 ≤
      (ns.foldl (fun acc v =>
        let sub := nodeSub (merged.filter (fun r => decide (r.time_send ≤ c2))) v
        let cnt := ceilDivNat sub.length s
        (acc.1 + healthyCount spine sub s cnt, acc.2 + cnt)) a2).2 := by
  intro ns
  induction ns with
  | nil => intro a1 a2 h1 h2; exact ⟨h1, h2⟩
  | cons v vs ih =>
    intro a1 a2 h1 h2
    rw [List.foldl_cons, List.foldl_cons]
    apply ih
    · exact Nat.add_le_add h1 (window_node_mono merged spine v s hs c1 c2 hc).1
    · exact Nat.add_le_add h2 (window_node_mono merged spine v s hs c1 c2 hc).2

theorem windowCounts_mono (merged : List MergedRow) (normal spine : List String) (s : Nat)
    (hs : 1 ≤ s) (c1 c2 : ℚ) (hc : c1 ≤ c2) :
    (windowCounts merged normal spine s c1).1 ≤ (windowCounts merged normal spine s c2).1 ∧
    (windowCounts merged normal spine s c1).2 ≤ (windowCounts merged normal spine s c2).2 :=
  foldl_window_mono merged spine s hs c1 c2 hc normal (0, 0) (0, 0) (le_refl 0) (le_refl 0)

theorem stepCutoff_mono (t0 t1 : ℚ) (ht : t0 ≤ t1) (steps i j : Nat) (hij : i ≤ j) :
    stepCutoff t0 t1 steps i ≤ stepCutoff t0 t1 steps j := by
  unfold stepCutoff stepPercent
  have hp : i * 100 / steps ≤ j * 100 / steps :=
    Nat.div_le_div_right (Nat.mul_le_mul_right _ hij)
  have hpc : ((i * 100 / steps : Nat) : ℚ) ≤ ((j * 100 / steps : Nat) : ℚ) := by
    exact_mod_cast hp
  have hdur : (0 : ℚ) ≤ t1 - t0 := by linarith
  have hdiv : ((i * 100 / steps : Nat) : ℚ) / 100 ≤ ((j * 100 / steps : Nat) : ℚ) / 100 := by
    linarith
  have hmul := mul_le_mul_of_nonneg_left hdiv hdur
  linarith

/-- C4 (amended): the windowed computation is cumulative — at any two of the
percent steps used by `compute_health_over_time`, the earlier window's
network-wide healthy-series count and total-series count are both bounded by
the later window's (the health fraction itself is NOT monotone, see the
counterexample). -/
theorem C4_amended_window_counts_monotone (merged : List MergedRow)
    (normal spine : List String) (s : Nat) (hs : 1 ≤ s) (t0 t1 : ℚ) (ht : t0 ≤ t1)
    (steps i j : Nat) (hij : i ≤ j) :
    (windowCounts merged normal spine s (stepCutoff t0 t1 steps i)).1 ≤
      (windowCounts merged normal spine s (stepCutoff t0 t1 steps j)).1 ∧
    (windowCounts merged normal spine s (stepCutoff t0 t1 steps i)).2 ≤
      (windowCounts merged normal spine s (stepCutoff t0 t1 steps j)).2 :=
  windowCounts_mono merged normal spine s hs _ _ (stepCutoff_mono t0 t1 ht steps i j hij)

/-- Witness for the amended C4 on the `hotLog` fixture: counts at the first
window are bounded by counts at the last. -/
theorem C4_amended_window_counts_monotone_witness :
    (windowCounts hotLog ["0"] ["1S"] 1 (stepCutoff 0 10 10 1)).1 ≤
      (windowCounts hotLog ["0"] ["1S"] 1 (stepCutoff 0 10 10 10)).1 ∧
    (windowCounts hotLog ["0"] ["1S"] 1 (stepCutoff 0 10 10 1)).2 ≤
      (windowCounts hotLog ["0"] ["1S"] 1 (stepCutoff 0 10 10 10)).2 :=
  C4_amended_window_counts_monotone hotLog ["0"] ["1S"] 1 (by omega) 0 10 (by norm_num)
    10 1 10 (by omega)

/-- C4 counterexample: on a log where no receive precedes its send, the
windowed health fractions are 100% at the 10%..90% windows and drop to 50%
at the 100% window — the sequence is not monotonically non-decreasing. -/
theorem C4_counterexample_fraction_decreases :
    (∀ r ∈ hotLog, ∀ ri, r.recv = some ri → r.time_send ≤ ri.time_recv) ∧
    compute_health_over_time hotLog ["0"] ["1S"] 1 0 10 10 =
      [(10, 1), (20, 1), (30, 1), (40, 1), (50, 1),
        (60, 1), (70, 1), (80, 1), (90, 1), (100, 1 / 2)] ∧
    ¬ ((1 : ℚ) ≤ 1 / 2) := by
  refine ⟨by decide, ?_, by norm_num⟩
  norm_num [compute_health_over_time, windowCounts, stepCutoff, stepPercent, nodeSub,
    sortLe, insertLe, leTime, chunkAt, chunkHealthy, healthyCount, ceilDivNat, hotLog,
    List.filter_cons, List.range_succ]

end AnalyzeResults
